import Mathlib

/-!
# Verification of the csv-peek line-navigation and viewport-rendering core

This development shallowly embeds the navigation, rendering and startup
logic of the csv-peek pager (`main.go`, both source variants present in the
repository) and settles the frozen specification claims against it.

A file is modelled as its list of bytes; seeks work on byte offsets exactly
as the Go code scans them (`os.File.ReadAt` of one byte at a time, with an
end-of-file read resolving to the file boundary).  Strings handled by the
renderer are modelled as lists of characters, matching the `[]rune`
conversions and `utf8.RuneCountInString` measurements of the source.
-/

namespace CsvPeek

/-- A file is modelled as its list of bytes. -/
abbrev ByteFile := List Nat

/-- The newline byte `'\n'`. -/
def nlByte : Nat := 10

/-- Byte of `file` at offset `i` (offsets outside the file are never read by
the modelled scans on the domains of the theorems below). -/
def byteAt (file : ByteFile) (i : Nat) : Nat := file.getD i 0

/-- The loop of `findNL`, structurally recursive on the number of unread
bytes (the fuel is always `file.length - i`, so fuel `0` means the scan is
at or past the end of file). -/
def findNLGo (file : ByteFile) : Nat → Nat → Nat
  | 0, _ => file.length
  | fuel + 1, i => if byteAt file i = nlByte then i else findNLGo file fuel (i + 1)

/-- Smallest offset `j ≥ i` whose byte is a newline; `file.length` if none. -/
def findNL (file : ByteFile) (i : Nat) : Nat :=
  findNLGo file (file.length - i) i

/-- The loop of `findText`, structurally recursive on the unread bytes. -/
def findTextGo (file : ByteFile) : Nat → Nat → Nat
  | 0, _ => file.length
  | fuel + 1, i => if byteAt file i ≠ nlByte then i else findTextGo file fuel (i + 1)

/-- Smallest offset `j ≥ i` whose byte is not a newline; `file.length` if none. -/
def findText (file : ByteFile) (i : Nat) : Nat :=
  findTextGo file (file.length - i) i

/-- Largest offset `j ≤ i` with `j ≥ 1` whose byte is a newline; `0` if none
(offset `0` is never inspected, matching the scan's `res <= 0` guard). -/
def rfindNL (file : ByteFile) : Nat → Nat
  | 0 => 0
  | i + 1 => if byteAt file (i + 1) = nlByte then i + 1 else rfindNL file i

/-- Largest offset `j ≤ i` with `j ≥ 1` whose byte is not a newline; `0` if none. -/
def rfindText (file : ByteFile) : Nat → Nat
  | 0 => 0
  | i + 1 => if byteAt file (i + 1) ≠ nlByte then i + 1 else rfindText file i

/-- The scanning loop of `Pager.seekForwardLine`, structurally recursive on
the number of unread bytes (always `file.length - res`; fuel `0` is the
`io.EOF` read, which resolves to the end offset): with flag `enteredNL`
recording whether a newline has been seen, return the offset of the first
non-newline byte after a newline. -/
def seekForwardGo (file : ByteFile) : Nat → Bool → Nat → Nat
  | 0, _, _ => file.length
  | fuel + 1, enteredNL, res =>
    if byteAt file res = nlByte ∧ enteredNL = false then seekForwardGo file fuel true (res + 1)
    else if byteAt file res ≠ nlByte ∧ enteredNL = true then res
    else seekForwardGo file fuel enteredNL (res + 1)

/-- The scanning loop of `Pager.seekForwardLine` from offset `res`. -/
def seekForwardAux (file : ByteFile) (enteredNL : Bool) (res : Nat) : Nat :=
  seekForwardGo file (file.length - res) enteredNL res

/-- `Pager.seekForwardLine` (identical in both source variants): scan forward
from the current offset. -/
def seekForwardLine (file : ByteFile) (cur : Nat) : Nat :=
  seekForwardAux file false cur

/-- The scanning loop of `Pager.seekBackLine`: position `p` is the Go loop's
`res`; the loop returns `0` as soon as `res ≤ 0` (so the byte at offset `0`
is never read), otherwise it reads the byte at `res`, updates the
`enteredNL`/`enteredText` flags and decrements, returning `res + 1` when a
newline is seen after text was entered. -/
def seekBackAux (file : ByteFile) : Nat → Bool → Bool → Nat
  | 0, _, _ => 0
  | p + 1, enteredNL, enteredText =>
    if byteAt file (p + 1) = nlByte ∧ enteredNL = false then seekBackAux file p true enteredText
    else if byteAt file (p + 1) ≠ nlByte ∧ enteredNL = true then seekBackAux file p enteredNL true
    else if byteAt file (p + 1) = nlByte ∧ enteredText = true then p + 2
    else seekBackAux file p enteredNL enteredText

/-- `Pager.seekBackLine` (identical in both source variants): scan backward
starting one byte before the current offset. -/
def seekBackLine (file : ByteFile) (cur : Nat) : Nat :=
  seekBackAux file (cur - 1) false false

/-- `Pager.seekForwardN` of the second source variant (lines 917–921): apply
the single-line forward seek `n` times in sequence. -/
def seekForwardN (file : ByteFile) : Nat → Nat → Nat
  | 0, p => p
  | n + 1, p => seekForwardN file n (seekForwardLine file p)

/-- `Pager.seekBackwardN` (identical loop in both variants): apply the
single-line backward seek `n` times in sequence. -/
def seekBackwardN (file : ByteFile) : Nat → Nat → Nat
  | 0, p => p
  | n + 1, p => seekBackwardN file n (seekBackLine file p)

/-- Number of CSV records readable from byte offset `p`, for quote-free
input: `encoding/csv` (configured with `LazyQuotes` and variable field
counts) yields one record per maximal run of non-newline bytes, skipping
blank lines.  The flag records whether the scan is inside such a run. -/
def countRecsAux : List Nat → Bool → Nat
  | [], _ => 0
  | b :: rest, inText =>
    if b = nlByte then countRecsAux rest false
    else (if inText then 0 else 1) + countRecsAux rest true

/-- Records readable from offset `p` of `file`. -/
def recordsFrom (file : ByteFile) (p : Nat) : Nat :=
  countRecsAux (file.drop p) false

/-- `Pager.countLinesAvailable` of the first source variant: read up to
`fitting` records from the current offset and report how many were there. -/
def countLinesAvailable (file : ByteFile) (fitting p : Nat) : Nat :=
  min fitting (recordsFrom file p)

/-- The retreat loop of the first variant's `Pager.seekForwardN`
(`for p.countLinesAvailable() < lines { p.seekBackLine() }`), written with
fuel: each backward seek strictly decreases a positive offset, so fuel
`q + 1` runs the loop to completion; the loop leaves offset `0` unchanged. -/
def retreatFuel (file : ByteFile) (fitting lines : Nat) : Nat → Nat → Nat
  | 0, q => q
  | fuel + 1, q =>
    if countLinesAvailable file fitting q < lines then
      retreatFuel file fitting lines fuel (seekBackLine file q)
    else q

/-- The retreat loop of the first variant's `Pager.seekForwardN`. -/
def retreat (file : ByteFile) (fitting lines q : Nat) : Nat :=
  retreatFuel file fitting lines (q + 1) q

/-- `Pager.seekForwardN` of the first source variant (lines 436–444): record
how many lines were available, take `n` single-line forward seeks, then seek
backward while fewer lines are available than before. -/
def seekForwardNV1 (file : ByteFile) (fitting n p : Nat) : Nat :=
  retreat file fitting (countLinesAvailable file fitting p) (seekForwardN file n p)

/-- `p` is the start of a non-empty logical line: a position inside the file
holding a non-newline byte, at offset `0` or immediately after a newline. -/
def goodPos (file : ByteFile) (p : Nat) : Prop :=
  p < file.length ∧ byteAt file p ≠ nlByte ∧ (p = 0 ∨ byteAt file (p - 1) = nlByte)

instance (file : ByteFile) (p : Nat) : Decidable (goodPos file p) := by
  unfold goodPos; infer_instance

/-- A cursor position reachable by the pager: the start of file, the end of
file, or the start of a non-empty logical line. -/
def validPos (file : ByteFile) (p : Nat) : Prop :=
  p = 0 ∨ p = file.length ∨ goodPos file p

instance (file : ByteFile) (p : Nat) : Decidable (validPos file p) := by
  unfold validPos; infer_instance

/-- Claim C4's literal reading of the backward seek, for a cursor sitting at
a line start: skip the single newline at `cur - 1`, scan back for the next
newline and return the offset just past it; `0` when no second newline is
found before the start of file. -/
def seekBackLineNaive (file : ByteFile) (cur : Nat) : Nat :=
  if cur ≤ 1 then 0
  else if rfindNL file (cur - 2) = 0 then 0
  else rfindNL file (cur - 2) + 1

/-- Claim C5's literal reading of the forward seek: find the first newline at
or after the cursor; if at least one byte follows it, return the offset just
past that newline, otherwise the end offset. -/
def seekForwardLineNaive (file : ByteFile) (cur : Nat) : Nat :=
  if findNL file cur + 1 < file.length then findNL file cur + 1 else file.length

/-- Amended backward-seek specification: from a cursor at a line start, skip
ALL contiguous newlines immediately preceding it, then the previous line's
text, and return the offset just past the next newline found after that
text; `0` when the start of file is reached first. -/
def seekBackSpec (file : ByteFile) (cur : Nat) : Nat :=
  if rfindText file (cur - 1) = 0 then 0
  else if rfindNL file (rfindText file (cur - 1) - 1) = 0 then 0
  else rfindNL file (rfindText file (cur - 1) - 1) + 1

/-! ### Renderer (second source variant, lines 745–826; the window-building
and clipping logic, lines 213–241 of the first variant, is identical) -/

/-- A CSV field, as its sequence of Unicode code points (`[]rune`). -/
abbrev Field := List Char

/-- A CSV record: an ordered sequence of fields. -/
abbrev CsvRecord := List Field

/-- `Pager.countMaxJoinedLength` of the second variant:
`(maxWidth+1)*maxFields + 1`. -/
def countMaxJoinedLength (maxFields maxWidth : Nat) : Nat :=
  (maxWidth + 1) * maxFields + 1

/-- `Pager.getTableLine` of the second variant: border glyphs at the ends,
junction glyphs at multiples of `maxWidth + 1`, horizontal fill elsewhere. -/
def getTableLineV2 (maxFields maxWidth : Nat) (startC middleC endC : Char) : List Char :=
  (List.range (countMaxJoinedLength maxFields maxWidth)).map fun i =>
    if i = 0 then startC
    else if i = countMaxJoinedLength maxFields maxWidth - 1 then endC
    else if i % (maxWidth + 1) = 0 then middleC
    else '━'

/-- `Pager.getTableHeaderLine`. -/
def getTableHeaderLineV2 (maxFields maxWidth : Nat) : List Char :=
  getTableLineV2 maxFields maxWidth '┏' '┳' '┓'

/-- `Pager.getTableFooterLine`. -/
def getTableFooterLineV2 (maxFields maxWidth : Nat) : List Char :=
  getTableLineV2 maxFields maxWidth '┗' '┻' '┛'

/-- `Pager.getDataLine` (the separator between data rows). -/
def getDataLineV2 (maxFields maxWidth : Nat) : List Char :=
  getTableLineV2 maxFields maxWidth '┣' '╋' '┫'

/-- `Pager.padString`: left-pad `input` with spaces to `length` code points
(a field never exceeds the column width on the renderer's inputs, since the
same window's read updated the width metrics first). -/
def padString (input : Field) (length : Nat) : List Char :=
  if input.length = length then input
  else List.replicate (length - input.length) ' ' ++ input

/-- `Pager.getDataFields` of the second variant: a `┃` border, then each
field padded to the uniform column width followed by a `┃` border. -/
def getDataFieldsV2 (maxWidth : Nat) (record : CsvRecord) : List Char :=
  '┃' :: (record.map fun f => padString f maxWidth ++ ['┃']).flatten

/-- The window-building loop of `Pager.getPrintableLines`: starting from
`[header]`, append a data row and a separator per record while the window is
shorter than the terminal height. -/
def buildWindow (height maxWidth : Nat) (dataFooter : List Char) :
    List (List Char) → List CsvRecord → List (List Char)
  | window, [] => window
  | window, record :: rest =>
    if height ≤ window.length then window
    else buildWindow height maxWidth dataFooter
      (window ++ [getDataFieldsV2 maxWidth record, dataFooter]) rest

/-- `window[len(window)-1] = footer` (the window always starts non-empty). -/
def replaceLast (window : List (List Char)) (footer : List Char) : List (List Char) :=
  window.dropLast ++ [footer]

/-- The horizontal clipping of one printable line,
`rpl[p.horizontalShift:min(len(rpl), p.horizontalShift+width)]`: a Go slice
whose bounds must satisfy `shift ≤ min(len, shift+width)`; out-of-range
bounds panic, modelled by `none`. -/
def clipLine (hshift width : Nat) (line : List Char) : Option (List Char) :=
  if hshift ≤ min line.length (hshift + width) then
    some ((line.drop hshift).take (min line.length (hshift + width) - hshift))
  else none

/-- `Pager.getPrintableLines` of the second variant: build the bordered
window, replace its last line by the footer, truncate to the terminal
height, then clip every line horizontally. -/
def getPrintableLinesV2 (maxFields maxWidth width height hshift : Nat)
    (lines : List CsvRecord) : Option (List (List Char)) :=
  let header := getTableHeaderLineV2 maxFields maxWidth
  let dataFooter := getDataLineV2 maxFields maxWidth
  let footer := getTableFooterLineV2 maxFields maxWidth
  let window := buildWindow height maxWidth dataFooter [header] lines
  let window := replaceLast window footer
  let window := window.take (min height window.length)
  window.mapM (clipLine hshift width)

/-! ### Window read metrics (`Pager.readLines`) -/

/-- The column metrics of the second variant's `Pager` state: the session's
`maxFields` and scalar `maxWidth` fields. -/
structure MetricsV2 where
  maxFields : Nat
  maxWidth : Nat
deriving DecidableEq, Repr

/-- One iteration of the second variant's `Pager.readLines` loop body
(lines 733–737): fold the record into the running metrics. -/
def readRecordMetricsV2 (st : MetricsV2) (record : CsvRecord) : MetricsV2 :=
  { maxFields := max st.maxFields record.length
    maxWidth := record.foldl (fun w f => max w f.length) st.maxWidth }

/-- The metric updates performed by the second variant's `Pager.readLines`
over one window of records. -/
def readLinesMetricsV2 (st : MetricsV2) (window : List CsvRecord) : MetricsV2 :=
  window.foldl readRecordMetricsV2 st

/-- The per-record `maxWidth` update of the first variant's `Pager.readLines`
(lines 201–207): extend the per-column width list with zeros to the record's
field count, then take the index-wise maximum with the fields' code-point
counts. -/
def updateWidths : List Nat → CsvRecord → List Nat
  | mw, [] => mw
  | [], f :: rest => max 0 f.length :: updateWidths [] rest
  | w :: mw, f :: rest => max w f.length :: updateWidths mw rest

/-- The `maxWidth` updates performed by the first variant's `Pager.readLines`
over one window of records. -/
def readLinesWidthsV1 (mw : List Nat) (window : List CsvRecord) : List Nat :=
  window.foldl updateWidths mw

/-! ### Horizontal panning -/

/-- `Pager.moveToRight` of the second variant (lines 837–844): a no-op when
the remaining unclipped length already fits the viewport width, otherwise
advance the shift by one column width plus one border. -/
def moveToRight (maxFields maxWidth width shift : Nat) : Nat :=
  if countMaxJoinedLength maxFields maxWidth - shift ≤ width then shift
  else shift + maxWidth + 1

/-- `sum` of the first variant. -/
def sumList (ns : List Nat) : Nat := ns.foldl (· + ·) 0

/-- `Pager.countMaxJoinedLength` of the first variant: each column width
plus one border character, plus one. -/
def countMaxJoinedLengthV1 (ws : List Nat) : Nat :=
  ws.foldl (fun res w => res + w + 1) 0 + 1

/-- The loop of the first variant's `Pager.currentFieldIndex`: Go `int`
arithmetic (`shift - i` may be negative), returning the first index whose
cumulative span contains `shift - i`. -/
def currentFieldIndexAux (shift : Int) : List Nat → Nat → Int → Option Nat
  | [], _, _ => none
  | w :: ws, i, cum =>
    if cum ≤ shift - i ∧ shift - i < cum + w then some i
    else currentFieldIndexAux shift ws (i + 1) (cum + w)

/-- `Pager.currentFieldIndex` of the first variant, as a Go `int` (the
fallback `len(p.maxWidth) - 1` is `-1` for an empty width list). -/
def currentFieldIndexV1 (ws : List Nat) (shift : Nat) : Int :=
  match currentFieldIndexAux (shift : Int) ws 0 0 with
  | some i => (i : Int)
  | none => if (shift : Int) = (sumList ws : Int) then (ws.length : Int) - 1 else 0

/-- `Pager.moveToRight` of the first variant (lines 322–330): the same
fits-already guard, then advance by the current column's width plus one;
an out-of-range column index (empty width list) panics, modelled by `none`. -/
def moveToRightV1 (ws : List Nat) (width shift : Nat) : Option Nat :=
  if (countMaxJoinedLengthV1 ws : Int) - (shift : Int) ≤ (width : Int) then some shift
  else
    let i := currentFieldIndexV1 ws shift
    if 0 ≤ i ∧ i < (ws.length : Int) then some (shift + ws.getD i.toNat 0 + 1)
    else none

/-! ### Startup validation (`main` and `getNewCSVReader`) -/

/-- Outcome of program startup. -/
inductive StartupOutcome where
  /-- `main` printed the usage message and exited with status 1. -/
  | usage : StartupOutcome
  /-- The pager runs, splitting fields at the given delimiter. -/
  | run : Char → StartupOutcome
deriving DecidableEq, Repr

/-- `main`'s argument validation (identical in both variants) combined with
`getNewCSVReader`'s delimiter use: an empty `-file` path is rejected as a
usage error; the delimiter is not validated, and `rune(comma[0])` on an
empty `-comma` string panics with an index-out-of-range error (`none`)
during the first render. -/
def startup (csvFile comma : String) : Option StartupOutcome :=
  if csvFile = "" then some .usage
  else
    match comma.data with
    | [] => none
    | c :: _ => some (.run c)

/-! ### Properties of the search primitives -/

theorem findNL_unfold (file : ByteFile) (i : Nat) :
    findNL file i =
      if i < file.length then
        if byteAt file i = nlByte then i else findNL file (i + 1)
      else file.length := by
  by_cases h : i < file.length
  · rw [if_pos h]
    unfold findNL
    rw [show file.length - i = (file.length - (i + 1)) + 1 by omega]
    rfl
  · rw [if_neg h]
    unfold findNL
    rw [show file.length - i = 0 by omega]
    rfl

theorem findText_unfold (file : ByteFile) (i : Nat) :
    findText file i =
      if i < file.length then
        if byteAt file i ≠ nlByte then i else findText file (i + 1)
      else file.length := by
  by_cases h : i < file.length
  · rw [if_pos h]
    unfold findText
    rw [show file.length - i = (file.length - (i + 1)) + 1 by omega]
    rfl
  · rw [if_neg h]
    unfold findText
    rw [show file.length - i = 0 by omega]
    rfl

theorem seekForwardAux_unfold (file : ByteFile) (enteredNL : Bool) (res : Nat) :
    seekForwardAux file enteredNL res =
      if res < file.length then
        if byteAt file res = nlByte ∧ enteredNL = false then seekForwardAux file true (res + 1)
        else if byteAt file res ≠ nlByte ∧ enteredNL = true then res
        else seekForwardAux file enteredNL (res + 1)
      else file.length := by
  by_cases h : res < file.length
  · rw [if_pos h]
    unfold seekForwardAux
    rw [show file.length - res = (file.length - (res + 1)) + 1 by omega]
    rfl
  · rw [if_neg h]
    unfold seekForwardAux
    rw [show file.length - res = 0 by omega]
    rfl

theorem findNL_le_length (file : ByteFile) (i : Nat) : findNL file i ≤ file.length := by
  rw [findNL_unfold]
  split
  · split
    · omega
    · exact findNL_le_length file (i + 1)
  · exact Nat.le_refl _
termination_by file.length - i
decreasing_by simp_wf; omega

theorem le_findNL (file : ByteFile) (i : Nat) (h : i ≤ file.length) : i ≤ findNL file i := by
  rw [findNL_unfold]
  split
  · split
    · exact Nat.le_refl _
    · have := le_findNL file (i + 1) (by omega)
      omega
  · omega
termination_by file.length - i
decreasing_by simp_wf; omega

theorem findNL_lt_byte (file : ByteFile) (i : Nat) (h : findNL file i < file.length) :
    byteAt file (findNL file i) = nlByte := by
  by_cases hi : i < file.length
  · by_cases hb : byteAt file i = nlByte
    · rw [findNL_unfold, if_pos hi, if_pos hb] at h ⊢
      exact hb
    · rw [findNL_unfold, if_pos hi, if_neg hb] at h ⊢
      exact findNL_lt_byte file (i + 1) h
  · rw [findNL_unfold, if_neg hi] at h
    omega
termination_by file.length - i
decreasing_by all_goals simp_wf; omega

theorem findNL_before (file : ByteFile) (i j : Nat) (h1 : i ≤ j) (h2 : j < findNL file i) :
    byteAt file j ≠ nlByte := by
  by_cases hi : i < file.length
  · by_cases hb : byteAt file i = nlByte
    · rw [findNL_unfold, if_pos hi, if_pos hb] at h2
      omega
    · rw [findNL_unfold, if_pos hi, if_neg hb] at h2
      rcases Nat.eq_or_lt_of_le h1 with h | h
      · exact h ▸ hb
      · exact findNL_before file (i + 1) j h h2
  · rw [findNL_unfold, if_neg hi] at h2
    have := findNL_le_length file i
    omega
termination_by file.length - i
decreasing_by all_goals simp_wf; omega

theorem findText_le_length (file : ByteFile) (i : Nat) : findText file i ≤ file.length := by
  rw [findText_unfold]
  split
  · split
    · omega
    · exact findText_le_length file (i + 1)
  · exact Nat.le_refl _
termination_by file.length - i
decreasing_by simp_wf; omega

theorem le_findText (file : ByteFile) (i : Nat) (h : i ≤ file.length) : i ≤ findText file i := by
  rw [findText_unfold]
  split
  · split
    · exact Nat.le_refl _
    · have := le_findText file (i + 1) (by omega)
      omega
  · omega
termination_by file.length - i
decreasing_by simp_wf; omega

theorem findText_lt_byte (file : ByteFile) (i : Nat) (h : findText file i < file.length) :
    byteAt file (findText file i) ≠ nlByte := by
  by_cases hi : i < file.length
  · by_cases hb : byteAt file i ≠ nlByte
    · rw [findText_unfold, if_pos hi, if_pos hb] at h ⊢
      exact hb
    · rw [findText_unfold, if_pos hi, if_neg hb] at h ⊢
      exact findText_lt_byte file (i + 1) h
  · rw [findText_unfold, if_neg hi] at h
    omega
termination_by file.length - i
decreasing_by all_goals simp_wf; omega

theorem findText_before (file : ByteFile) (i j : Nat) (h1 : i ≤ j) (h2 : j < findText file i) :
    byteAt file j = nlByte := by
  by_cases hi : i < file.length
  · by_cases hb : byteAt file i ≠ nlByte
    · rw [findText_unfold, if_pos hi, if_pos hb] at h2
      omega
    · rw [findText_unfold, if_pos hi, if_neg hb] at h2
      rcases Nat.eq_or_lt_of_le h1 with h | h
      · subst h
        exact Decidable.not_not.mp hb
      · exact findText_before file (i + 1) j h h2
  · rw [findText_unfold, if_neg hi] at h2
    have := findText_le_length file i
    omega
termination_by file.length - i
decreasing_by all_goals simp_wf; omega

theorem rfindNL_le (file : ByteFile) (i : Nat) : rfindNL file i ≤ i := by
  induction i with
  | zero => simp [rfindNL]
  | succ n ih =>
    rw [rfindNL]
    split
    · exact Nat.le_refl _
    · omega

theorem rfindNL_pos_byte (file : ByteFile) (i : Nat) (h : 0 < rfindNL file i) :
    byteAt file (rfindNL file i) = nlByte := by
  induction i with
  | zero => simp [rfindNL] at h
  | succ n ih =>
    by_cases hb : byteAt file (n + 1) = nlByte
    · rw [rfindNL, if_pos hb]
      exact hb
    · rw [rfindNL, if_neg hb] at h ⊢
      exact ih h

theorem rfindNL_after (file : ByteFile) (i j : Nat) (h1 : rfindNL file i < j) (h2 : j ≤ i) :
    byteAt file j ≠ nlByte := by
  induction i with
  | zero => omega
  | succ n ih =>
    by_cases hb : byteAt file (n + 1) = nlByte
    · rw [rfindNL, if_pos hb] at h1
      omega
    · rw [rfindNL, if_neg hb] at h1
      rcases Nat.eq_or_lt_of_le h2 with h | h
      · exact h ▸ hb
      · exact ih h1 (by omega)

theorem rfindNL_eq_of (file : ByteFile) (i r : Nat) (h1 : 1 ≤ r) (h2 : r ≤ i)
    (h3 : byteAt file r = nlByte)
    (h4 : ∀ j, r < j → j ≤ i → byteAt file j ≠ nlByte) : rfindNL file i = r := by
  induction i with
  | zero => omega
  | succ n ih =>
    rcases Nat.eq_or_lt_of_le h2 with h | h
    · subst h
      rw [rfindNL, if_pos h3]
    · by_cases hb : byteAt file (n + 1) = nlByte
      · exact absurd hb (h4 (n + 1) h (Nat.le_refl _))
      · rw [rfindNL, if_neg hb]
        exact ih (by omega) (fun j hj1 hj2 => h4 j hj1 (by omega))

theorem rfindNL_eq_zero (file : ByteFile) (i : Nat)
    (h : ∀ j, 1 ≤ j → j ≤ i → byteAt file j ≠ nlByte) : rfindNL file i = 0 := by
  induction i with
  | zero => rfl
  | succ n ih =>
    rw [rfindNL, if_neg (h (n + 1) (by omega) (Nat.le_refl _))]
    exact ih (fun j hj1 hj2 => h j hj1 (by omega))

theorem rfindText_le (file : ByteFile) (i : Nat) : rfindText file i ≤ i := by
  induction i with
  | zero => simp [rfindText]
  | succ n ih =>
    rw [rfindText]
    split
    · exact Nat.le_refl _
    · omega

theorem rfindText_pos_byte (file : ByteFile) (i : Nat) (h : 0 < rfindText file i) :
    byteAt file (rfindText file i) ≠ nlByte := by
  induction i with
  | zero => simp [rfindText] at h
  | succ n ih =>
    by_cases hb : byteAt file (n + 1) ≠ nlByte
    · rw [rfindText, if_pos hb]
      exact hb
    · rw [rfindText, if_neg hb] at h ⊢
      exact ih h

theorem rfindText_after (file : ByteFile) (i j : Nat) (h1 : rfindText file i < j) (h2 : j ≤ i) :
    byteAt file j = nlByte := by
  induction i with
  | zero => omega
  | succ n ih =>
    by_cases hb : byteAt file (n + 1) ≠ nlByte
    · rw [rfindText, if_pos hb] at h1
      omega
    · rw [rfindText, if_neg hb] at h1
      rcases Nat.eq_or_lt_of_le h2 with h | h
      · subst h
        exact Decidable.not_not.mp hb
      · exact ih h1 (by omega)

theorem rfindText_eq_of (file : ByteFile) (i r : Nat) (h1 : 1 ≤ r) (h2 : r ≤ i)
    (h3 : byteAt file r ≠ nlByte)
    (h4 : ∀ j, r < j → j ≤ i → byteAt file j = nlByte) : rfindText file i = r := by
  induction i with
  | zero => omega
  | succ n ih =>
    rcases Nat.eq_or_lt_of_le h2 with h | h
    · subst h
      rw [rfindText, if_pos h3]
    · by_cases hb : byteAt file (n + 1) ≠ nlByte
      · exact absurd (h4 (n + 1) h (Nat.le_refl _)) hb
      · rw [rfindText, if_neg hb]
        exact ih (by omega) (fun j hj1 hj2 => h4 j hj1 (by omega))

theorem rfindText_eq_zero (file : ByteFile) (i : Nat)
    (h : ∀ j, 1 ≤ j → j ≤ i → byteAt file j = nlByte) : rfindText file i = 0 := by
  induction i with
  | zero => rfl
  | succ n ih =>
    rw [rfindText, if_neg (by simpa using h (n + 1) (by omega) (Nat.le_refl _))]
    exact ih (fun j hj1 hj2 => h j hj1 (by omega))

/-! ### Closed forms of the two byte scans -/

theorem seekForwardAux_true (file : ByteFile) (i : Nat) :
    seekForwardAux file true i = findText file i := by
  by_cases hi : i < file.length
  · by_cases hb : byteAt file i = nlByte
    · rw [seekForwardAux_unfold, if_pos hi, if_neg (by simp), if_neg (by simp [hb]),
        seekForwardAux_true file (i + 1)]
      exact (show findText file i = findText file (i + 1) by
        rw [findText_unfold, if_pos hi, if_neg (by simp [hb])]).symm
    · rw [seekForwardAux_unfold, if_pos hi, if_neg (by simp [hb]), if_pos ⟨hb, rfl⟩]
      rw [findText_unfold, if_pos hi, if_pos hb]
  · rw [seekForwardAux_unfold, if_neg hi, findText_unfold, if_neg hi]
termination_by file.length - i
decreasing_by simp_wf; omega

theorem seekForwardAux_false (file : ByteFile) (i : Nat) :
    seekForwardAux file false i =
      if findNL file i < file.length then findText file (findNL file i + 1)
      else file.length := by
  by_cases hi : i < file.length
  · by_cases hb : byteAt file i = nlByte
    · rw [seekForwardAux_unfold, if_pos hi, if_pos ⟨hb, rfl⟩]
      rw [seekForwardAux_true]
      rw [show findNL file i = i from by rw [findNL_unfold, if_pos hi, if_pos hb], if_pos hi]
    · rw [seekForwardAux_unfold, if_pos hi, if_neg (by simp [hb]), if_neg (by simp)]
      rw [seekForwardAux_false file (i + 1)]
      rw [show findNL file i = findNL file (i + 1) from by
        rw [findNL_unfold, if_pos hi, if_neg hb]]
  · rw [seekForwardAux_unfold, if_neg hi]
    rw [show findNL file i = file.length from by rw [findNL_unfold, if_neg hi]]
    simp
termination_by file.length - i
decreasing_by simp_wf; omega

/-- Closed form of the forward seek: scan to the first newline at or after
the cursor, then past any further contiguous newlines, returning the offset
of the first non-newline byte; the end offset when the scan runs out. -/
theorem seekForwardLine_eq (file : ByteFile) (cur : Nat) :
    seekForwardLine file cur =
      if findNL file cur < file.length then findText file (findNL file cur + 1)
      else file.length :=
  seekForwardAux_false file cur

theorem seekBackAux_tt (file : ByteFile) (p : Nat) :
    seekBackAux file p true true =
      if rfindNL file p = 0 then 0 else rfindNL file p + 1 := by
  induction p with
  | zero => simp [seekBackAux, rfindNL]
  | succ n ih =>
    by_cases hb : byteAt file (n + 1) = nlByte
    · rw [seekBackAux, if_neg (by simp), if_neg (by simp [hb]), if_pos ⟨hb, rfl⟩,
        rfindNL, if_pos hb]
      simp
    · rw [seekBackAux, if_neg (by simp [hb]), if_pos ⟨hb, rfl⟩]
      rw [rfindNL, if_neg hb]
      exact ih

theorem seekBackAux_tf (file : ByteFile) (p : Nat) :
    seekBackAux file p true false =
      if rfindText file p = 0 then 0
      else seekBackAux file (rfindText file p - 1) true true := by
  induction p with
  | zero => simp [seekBackAux, rfindText]
  | succ n ih =>
    by_cases hb : byteAt file (n + 1) = nlByte
    · have hr : rfindText file (n + 1) = rfindText file n := by
        rw [rfindText, if_neg (by simp [hb])]
      rw [seekBackAux, if_neg (by simp), if_neg (by simp [hb]), if_neg (by simp), hr]
      exact ih
    · rw [seekBackAux, if_neg (by simp [hb]), if_pos ⟨hb, rfl⟩]
      rw [rfindText, if_pos hb]
      simp

theorem seekBackAux_ff (file : ByteFile) (p : Nat) :
    seekBackAux file p false false =
      if rfindNL file p = 0 then 0
      else seekBackAux file (rfindNL file p - 1) true false := by
  induction p with
  | zero => simp [seekBackAux, rfindNL]
  | succ n ih =>
    by_cases hb : byteAt file (n + 1) = nlByte
    · rw [seekBackAux, if_pos ⟨hb, rfl⟩]
      rw [rfindNL, if_pos hb]
      simp
    · have hr : rfindNL file (n + 1) = rfindNL file n := by
        rw [rfindNL, if_neg hb]
      rw [seekBackAux, if_neg (by simp [hb]), if_neg (by simp), if_neg (by simp [hb]), hr]
      exact ih

/-- Closed form of the backward seek as a three-phase scan: skip non-newlines
back to a newline, skip the newline run, skip the text run, and return just
past the newline bounding that text; `0` whenever a phase reaches the guard
at offset `0`. -/
theorem seekBackLine_eq (file : ByteFile) (cur : Nat) :
    seekBackLine file cur =
      if rfindNL file (cur - 1) = 0 then 0
      else if rfindText file (rfindNL file (cur - 1) - 1) = 0 then 0
      else if rfindNL file (rfindText file (rfindNL file (cur - 1) - 1) - 1) = 0 then 0
      else rfindNL file (rfindText file (rfindNL file (cur - 1) - 1) - 1) + 1 := by
  unfold seekBackLine
  rw [seekBackAux_ff]
  split
  · rfl
  · rw [seekBackAux_tf]
    split
    · rfl
    · rw [seekBackAux_tt]

/-! ### Derived navigation facts -/

theorem seekForwardLine_le_length (file : ByteFile) (cur : Nat) :
    seekForwardLine file cur ≤ file.length := by
  rw [seekForwardLine_eq]
  split
  · exact findText_le_length file _
  · exact Nat.le_refl _

/-- A forward seek that does not land at the end offset lands at the start of
a non-empty logical line. -/
theorem seekForwardLine_goodPos (file : ByteFile) (cur : Nat)
    (h : seekForwardLine file cur ≠ file.length) :
    goodPos file (seekForwardLine file cur) := by
  rw [seekForwardLine_eq] at h ⊢
  by_cases ha : findNL file cur < file.length
  · rw [if_pos ha] at h ⊢
    set a := findNL file cur with hadef
    set c := findText file (a + 1) with hcdef
    have hc_le : c ≤ file.length := findText_le_length file _
    have hc_lt : c < file.length := Nat.lt_of_le_of_ne hc_le h
    have hbc : byteAt file c ≠ nlByte := findText_lt_byte file _ hc_lt
    have hac : a + 1 ≤ c := le_findText file (a + 1) (by
      have := findNL_le_length file cur
      omega)
    refine ⟨hc_lt, hbc, Or.inr ?_⟩
    rcases Nat.eq_or_lt_of_le hac with he | hlt2
    · rw [show c - 1 = a by omega]
      exact findNL_lt_byte file cur ha
    · exact findText_before file (a + 1) (c - 1) (by omega) (by omega)
  · rw [if_neg ha] at h
    exact absurd rfl h

/-- A backward seek lands at offset `0` or at the start of a non-empty
logical line. -/
theorem seekBackLine_result (file : ByteFile) (cur : Nat) (h : cur ≤ file.length) :
    seekBackLine file cur = 0 ∨ goodPos file (seekBackLine file cur) := by
  rw [seekBackLine_eq]
  set n1 := rfindNL file (cur - 1) with hn1def
  by_cases h1 : n1 = 0
  · rw [if_pos h1]
    exact Or.inl rfl
  rw [if_neg h1]
  set t := rfindText file (n1 - 1) with htdef
  by_cases h2 : t = 0
  · rw [if_pos h2]
    exact Or.inl rfl
  rw [if_neg h2]
  set a := rfindNL file (t - 1) with hadef
  by_cases h3 : a = 0
  · rw [if_pos h3]
    exact Or.inl rfl
  rw [if_neg h3]
  right
  have hb1 : n1 ≤ cur - 1 := hn1def ▸ rfindNL_le file (cur - 1)
  have hb2 : t ≤ n1 - 1 := htdef ▸ rfindText_le file (n1 - 1)
  have hb3 : a ≤ t - 1 := hadef ▸ rfindNL_le file (t - 1)
  have hat : byteAt file a = nlByte := hadef ▸ rfindNL_pos_byte file (t - 1) (by omega)
  have htb : byteAt file t ≠ nlByte := htdef ▸ rfindText_pos_byte file (n1 - 1) (by omega)
  refine ⟨by omega, ?_, Or.inr (by simpa using hat)⟩
  rcases Nat.eq_or_lt_of_le (show a + 1 ≤ t by omega) with he | hlt
  · exact he ▸ htb
  · exact hadef ▸ rfindNL_after file (t - 1) (a + 1) (by omega) (by omega)

/-- A backward seek strictly decreases a positive offset. -/
theorem seekBackLine_lt (file : ByteFile) (cur : Nat) (h : 0 < cur) :
    seekBackLine file cur < cur := by
  rw [seekBackLine_eq]
  set n1 := rfindNL file (cur - 1) with hn1def
  by_cases h1 : n1 = 0
  · rw [if_pos h1]
    omega
  rw [if_neg h1]
  set t := rfindText file (n1 - 1) with htdef
  by_cases h2 : t = 0
  · rw [if_pos h2]
    omega
  rw [if_neg h2]
  set a := rfindNL file (t - 1) with hadef
  by_cases h3 : a = 0
  · rw [if_pos h3]
    omega
  rw [if_neg h3]
  have hb1 : n1 ≤ cur - 1 := hn1def ▸ rfindNL_le file (cur - 1)
  have hb2 : t ≤ n1 - 1 := htdef ▸ rfindText_le file (n1 - 1)
  have hb3 : a ≤ t - 1 := hadef ▸ rfindNL_le file (t - 1)
  omega

theorem seekBackLine_zero (file : ByteFile) : seekBackLine file 0 = 0 := rfl

theorem seekBackwardN_of_zero (file : ByteFile) (n : Nat) : seekBackwardN file n 0 = 0 := by
  induction n with
  | zero => rfl
  | succ m ih =>
    rw [seekBackwardN, seekBackLine_zero]
    exact ih

theorem seekForwardN_eq_iterate (file : ByteFile) (n p : Nat) :
    seekForwardN file n p = (seekForwardLine file)^[n] p := by
  induction n generalizing p with
  | zero => rfl
  | succ m ih => rw [seekForwardN, ih, Function.iterate_succ_apply]

theorem seekBackwardN_eq_iterate (file : ByteFile) (n p : Nat) :
    seekBackwardN file n p = (seekBackLine file)^[n] p := by
  induction n generalizing p with
  | zero => rfl
  | succ m ih => rw [seekBackwardN, ih, Function.iterate_succ_apply]

theorem seekForwardN_succ' (file : ByteFile) (n p : Nat) :
    seekForwardN file (n + 1) p = seekForwardLine file (seekForwardN file n p) := by
  rw [seekForwardN_eq_iterate, seekForwardN_eq_iterate, Function.iterate_succ_apply']

/-- The backward seek inverts the forward seek on starts of non-empty logical
lines at offset at least `2`; from lower positions it lands at `0` (the byte
at offset `0` is protected by the `res <= 0` guard and is never compared
with a newline). -/
theorem seekBack_seekForward (file : ByteFile) (p : Nat)
    (hp : p = 0 ∨ goodPos file p)
    (hlt : seekForwardLine file p < file.length) :
    seekBackLine file (seekForwardLine file p) = if 2 ≤ p then p else 0 := by
  have hp_le : p ≤ file.length := by
    rcases hp with h | h
    · omega
    · exact Nat.le_of_lt h.1
  rw [seekForwardLine_eq] at hlt ⊢
  by_cases ha : findNL file p < file.length
  swap
  · rw [if_neg ha] at hlt
    omega
  rw [if_pos ha] at hlt ⊢
  set a := findNL file p with hadef
  set c := findText file (a + 1) with hcdef
  have hpa : p ≤ a := le_findNL file p hp_le
  have ha_byte : byteAt file a = nlByte := findNL_lt_byte file p ha
  have hbefore : ∀ j, p ≤ j → j < a → byteAt file j ≠ nlByte := fun j h1 h2 =>
    findNL_before file p j h1 h2
  have hc_ge : a + 1 ≤ c := le_findText file (a + 1) (by omega)
  have hc_byte : byteAt file c ≠ nlByte := findText_lt_byte file (a + 1) hlt
  have hmid : ∀ j, a + 1 ≤ j → j < c → byteAt file j = nlByte := fun j h1 h2 =>
    findText_before file (a + 1) j h1 h2
  by_cases hc1 : c = 1
  · have hp0 : p = 0 := by omega
    rw [hc1, if_neg (by omega)]
    simp [seekBackLine, seekBackAux]
  have hc2 : 2 ≤ c := by omega
  have hcm1 : byteAt file (c - 1) = nlByte := by
    rcases Nat.eq_or_lt_of_le hc_ge with he | hlt2
    · rw [show c - 1 = a by omega]
      exact ha_byte
    · exact hmid (c - 1) (by omega) (by omega)
  have hn1 : rfindNL file (c - 1) = c - 1 :=
    rfindNL_eq_of file (c - 1) (c - 1) (by omega) (Nat.le_refl _) hcm1
      (fun j h1 h2 => by omega)
  rw [seekBackLine_eq, hn1, if_neg (by omega)]
  by_cases hpnl : byteAt file p = nlByte
  · -- the cursor was at `0` on a file opening with a newline: no text run
    have hp0 : p = 0 := by
      rcases hp with h | h
      · exact h
      · exact absurd hpnl h.2.1
    have hfp : findNL file p = p := by
      rw [findNL_unfold, if_pos (by omega), if_pos hpnl]
    have ha0 : a = 0 := by omega
    have ht0 : rfindText file (c - 1 - 1) = 0 :=
      rfindText_eq_zero file (c - 1 - 1)
        (fun j hj1 hj2 => hmid j (by omega) (by omega))
    rw [ht0, if_pos rfl, if_neg (by omega)]
  · have hpa' : p < a := by
      rcases Nat.eq_or_lt_of_le hpa with he | h2
      · exact absurd (he ▸ ha_byte) hpnl
      · exact h2
    by_cases ha1 : a = 1
    · -- single text byte at offset `0`, unreadable by the backward scan
      have hp0 : p = 0 := by omega
      have ht0 : rfindText file (c - 1 - 1) = 0 :=
        rfindText_eq_zero file (c - 1 - 1) (fun j hj1 hj2 => by
          rcases Nat.eq_or_lt_of_le hj1 with he | h2
          · rw [← he, ← ha1]
            exact ha_byte
          · exact hmid j (by omega) (by omega))
      rw [ht0, if_pos rfl, if_neg (by omega)]
    · have ha2 : 2 ≤ a := by omega
      have ht : rfindText file (c - 1 - 1) = a - 1 :=
        rfindText_eq_of file (c - 1 - 1) (a - 1) (by omega) (by omega)
          (hbefore (a - 1) (by omega) (by omega))
          (fun j hj1 hj2 => by
            rcases Nat.eq_or_lt_of_le (show a ≤ j by omega) with he | h2
            · rw [← he]
              exact ha_byte
            · exact hmid j (by omega) (by omega))
      rw [ht, if_neg (by omega)]
      by_cases hp2 : 2 ≤ p
      · have hpm1 : byteAt file (p - 1) = nlByte := by
          rcases hp with h | h
          · omega
          · rcases h.2.2 with h0 | hnl
            · omega
            · exact hnl
        have haa : rfindNL file (a - 1 - 1) = p - 1 :=
          rfindNL_eq_of file (a - 1 - 1) (p - 1) (by omega) (by omega) hpm1
            (fun j hj1 hj2 => hbefore j (by omega) (by omega))
        rw [haa, if_neg (by omega), if_pos hp2]
        omega
      · have haa : rfindNL file (a - 1 - 1) = 0 :=
          rfindNL_eq_zero file (a - 1 - 1)
            (fun j hj1 hj2 => hbefore j (by omega) (by omega))
        rw [haa, if_pos rfl, if_neg hp2]

/-! ### Claim C6 -/

/-- Claim C6 amended: For every file, every pager-reachable cursor position
`p` (start of file, end of file, or start of a non-empty logical line) and
every count `n`, moving forward `n` lines and then backward `n` lines
returns the cursor to `p`, except when a file boundary interferes: if the
forward phase reaches the end offset the final cursor may come to rest at an
earlier line start (it does not clamp at a boundary), and if the backward
phase reaches the start of file the final offset clamps at `0`. -/
theorem C6_roundtrip_amended (file : ByteFile) (n p : Nat) (hp : validPos file p) :
    seekBackwardN file n (seekForwardN file n p) = p
    ∨ (∃ k, k ≤ n ∧ seekForwardN file k p = file.length)
    ∨ seekBackwardN file n (seekForwardN file n p) = 0 := by
  induction n with
  | zero => exact Or.inl rfl
  | succ m ih =>
    by_cases hsat : ∃ k, k ≤ m + 1 ∧ seekForwardN file k p = file.length
    · exact Or.inr (Or.inl hsat)
    push_neg at hsat
    have hm : seekForwardN file m p ≠ file.length := hsat m (by omega)
    have hm1 : seekForwardN file (m + 1) p ≠ file.length := hsat (m + 1) (Nat.le_refl _)
    have hq : seekForwardN file (m + 1) p = seekForwardLine file (seekForwardN file m p) :=
      seekForwardN_succ' file m p
    set q := seekForwardN file m p with hqdef
    have hqv : q = 0 ∨ goodPos file q := by
      cases m with
      | zero =>
        have hq0 : q = p := hqdef.trans rfl
        rcases hp with h | h | h
        · exact Or.inl (hq0.trans h)
        · exact absurd (hq0.trans h) hm
        · exact Or.inr (by rw [hq0]; exact h)
      | succ k =>
        have hstep : q = seekForwardLine file (seekForwardN file k p) :=
          hqdef.trans (seekForwardN_succ' file k p)
        right
        rw [hstep]
        exact seekForwardLine_goodPos file _ (hstep ▸ hm)
    have hfq_lt : seekForwardLine file q < file.length := by
      have h1 : seekForwardLine file q ≤ file.length := seekForwardLine_le_length file q
      have h2 : seekForwardLine file q ≠ file.length := hq ▸ hm1
      omega
    have hback : seekBackLine file (seekForwardLine file q) = if 2 ≤ q then q else 0 :=
      seekBack_seekForward file q hqv hfq_lt
    have hBN : seekBackwardN file (m + 1) (seekForwardN file (m + 1) p)
        = seekBackwardN file m (seekBackLine file (seekForwardLine file q)) := by
      rw [hq]
      rfl
    rw [hBN, hback]
    by_cases hq2 : 2 ≤ q
    · rw [if_pos hq2]
      rcases ih with h | h | h
      · exact Or.inl h
      · rcases h with ⟨k, hk, he⟩
        exact absurd he (hsat k (by omega))
      · exact Or.inr (Or.inr h)
    · rw [if_neg hq2]
      exact Or.inr (Or.inr (seekBackwardN_of_zero file m))

/-! ### Claim C4: backward line seek -/

/-- Claim C4 counterexample: On the file `"a\n\nb"` the cursor offset `3` is
a line start (the byte at offset `2` is a newline).  The claim's literal
scan — skip the single newline at offset `2`, then return just past the next
newline further back (at offset `1`) — would land at offset `2`, and two
newlines are found before the start of file, so the claim does not predict
`0`; the code's backward seek nevertheless returns `0`. -/
theorem C4_counterexample :
    byteAt [97, 10, 10, 98] 2 = nlByte
    ∧ seekBackLineNaive [97, 10, 10, 98] 3 = 2
    ∧ seekBackLine [97, 10, 10, 98] 3 = 0
    ∧ seekBackLine [97, 10, 10, 98] 3 ≠ seekBackLineNaive [97, 10, 10, 98] 3 := by
  decide

/-- Claim C4 amended: For every file and every cursor offset at a line start,
the backward seek skips ALL contiguous newlines immediately preceding the
cursor (not only the single newline terminating the current line), then the
previous line's text, and returns the offset just past the next newline
found behind that text; it returns `0` when the scan reaches the start of
file first (the byte at offset `0` is never inspected). -/
theorem C4_backseek_amended (file : ByteFile) (cur : Nat)
    (h : cur = 0 ∨ byteAt file (cur - 1) = nlByte) :
    seekBackLine file cur = seekBackSpec file cur := by
  by_cases h0 : cur = 0
  · subst h0
    simp [seekBackLine, seekBackAux, seekBackSpec, rfindText]
  by_cases h1 : cur = 1
  · subst h1
    simp [seekBackLine, seekBackAux, seekBackSpec, rfindText]
  have hnl : byteAt file (cur - 1) = nlByte := by
    rcases h with h | h
    · omega
    · exact h
  have hn1 : rfindNL file (cur - 1) = cur - 1 :=
    rfindNL_eq_of file (cur - 1) (cur - 1) (by omega) (Nat.le_refl _) hnl
      (fun j hj1 hj2 => by omega)
  have ht' : rfindText file (cur - 1) = rfindText file (cur - 1 - 1) := by
    obtain ⟨k, hk⟩ : ∃ k, cur - 1 = k + 1 := ⟨cur - 2, by omega⟩
    rw [hk, rfindText, if_neg (by rw [← hk]; simp [hnl])]
    rfl
  rw [seekBackLine_eq, hn1, if_neg (by omega)]
  unfold seekBackSpec
  rw [ht']

/-- Witness for `C4_backseek_amended` at the file `"a\nb\n"`, cursor `4`. -/
theorem C4_backseek_amended_witness :
    ((4 : Nat) = 0 ∨ byteAt [97, 10, 98, 10] (4 - 1) = nlByte)
    ∧ seekBackLine [97, 10, 98, 10] 4 = seekBackSpec [97, 10, 98, 10] 4 :=
  ⟨Or.inr (by decide), C4_backseek_amended [97, 10, 98, 10] 4 (Or.inr (by decide))⟩

/-! ### Claim C5: forward line seek -/

/-- Claim C5 counterexample: On the file `"a\n\nb"` from offset `0`, the
first newline (offset `1`) is followed by at least one more byte, so the
claim's scan returns the offset just past it, `2` — the start of the empty
line; the code's forward seek skips the adjacent newline as well and
returns `3`. -/
theorem C5_counterexample :
    seekForwardLine [97, 10, 10, 98] 0 = 3
    ∧ seekForwardLineNaive [97, 10, 10, 98] 0 = 2
    ∧ seekForwardLine [97, 10, 10, 98] 0 ≠ seekForwardLineNaive [97, 10, 10, 98] 0 := by
  decide

/-- Claim C5 amended: For every file and every current offset, the forward
seek scans to the first newline at or after the cursor, then past any
further contiguous newlines, and returns the offset of the first
non-newline byte after that newline run; if the scan reaches end of file
(no newline, or only newlines after the first one), it returns the file's
end offset. -/
theorem C5_forwardseek_amended (file : ByteFile) (cur : Nat) :
    seekForwardLine file cur =
      if findNL file cur < file.length then findText file (findNL file cur + 1)
      else file.length :=
  seekForwardLine_eq file cur

/-! ### Claim C6: round-trip navigation -/

/-- Claim C6 counterexample: On the file `"a\nb\nc\n"` (length `6`), the
cursor offset `4` is a line start; two forward seeks reach the end boundary
`6` during the sequence, and the two backward seeks then land at offset `2`:
the final cursor is neither the starting offset `4` nor a clamped boundary
(`0` or `6`). -/
theorem C6_counterexample :
    goodPos [97, 10, 98, 10, 99, 10] 4
    ∧ ([97, 10, 98, 10, 99, 10] : ByteFile).length = 6
    ∧ seekForwardN [97, 10, 98, 10, 99, 10] 1 4 = 6
    ∧ seekForwardN [97, 10, 98, 10, 99, 10] 2 4 = 6
    ∧ seekBackwardN [97, 10, 98, 10, 99, 10] 2
        (seekForwardN [97, 10, 98, 10, 99, 10] 2 4) = 2
    ∧ (2 : Nat) ≠ 4 ∧ (2 : Nat) ≠ 0 ∧ (2 : Nat) ≠ 6 := by
  decide

/-- Witness for `C6_roundtrip_amended` at the file `"a\nb\n"`, start `2`,
count `1` (the forward phase reaches the end offset). -/
theorem C6_roundtrip_amended_witness :
    validPos [97, 10, 98, 10] 2
    ∧ (seekBackwardN [97, 10, 98, 10] 1 (seekForwardN [97, 10, 98, 10] 1 2) = 2
      ∨ (∃ k, k ≤ 1 ∧ seekForwardN [97, 10, 98, 10] k 2 = ([97, 10, 98, 10] : ByteFile).length)
      ∨ seekBackwardN [97, 10, 98, 10] 1 (seekForwardN [97, 10, 98, 10] 1 2) = 0) :=
  ⟨by decide, C6_roundtrip_amended [97, 10, 98, 10] 1 2 (by decide)⟩

/-! ### Claim C10: newline runs and empty lines -/

/-- Claim C10 counterexample: On the file `"\na"` the offset `1` is the
start of the (non-empty) second line; the backward seek from it returns
offset `0`, and offset `0` is the start of an empty logical line (its byte
is a newline): the cursor does come to rest at the start of an empty line. -/
theorem C10_counterexample :
    goodPos [10, 97] 1
    ∧ seekBackLine [10, 97] 1 = 0
    ∧ byteAt [10, 97] 0 = nlByte := by
  decide

/-- Claim C10 amended: Both seeks treat newline runs as a single boundary:
the forward seek lands at the end offset or at the start of a non-empty
logical line, and the backward seek (from any offset inside the file) lands
at the start of a non-empty logical line or at offset `0` — where, and only
where, the cursor can rest on an empty logical line, because the byte at
offset `0` is protected by the scan's `res <= 0` guard. -/
theorem C10_seek_landing_amended (file : ByteFile) (cur : Nat) :
    (seekForwardLine file cur = file.length ∨ goodPos file (seekForwardLine file cur))
    ∧ (cur ≤ file.length →
        (seekBackLine file cur = 0 ∨ goodPos file (seekBackLine file cur))) := by
  constructor
  · by_cases h : seekForwardLine file cur = file.length
    · exact Or.inl h
    · exact Or.inr (seekForwardLine_goodPos file cur h)
  · exact seekBackLine_result file cur

/-- Witness for `C10_seek_landing_amended` at the file `"a\nb"`, cursor `3`. -/
theorem C10_seek_landing_amended_witness :
    (3 ≤ ([97, 10, 98] : ByteFile).length)
    ∧ (seekBackLine [97, 10, 98] 3 = 0 ∨ goodPos [97, 10, 98] (seekBackLine [97, 10, 98] 3)) :=
  ⟨by decide, (C10_seek_landing_amended [97, 10, 98] 3).2 (by decide)⟩

/-! ### Claim C7: digit-prefixed jumps -/

/-- Claim C7 counterexample: In the first source variant, `seekForwardN` is
not equivalent to iterating the single-line navigator: on the file
`"a\nb\nc\n"` with a window of `2` fitting lines, a jump of `2` from offset
`0` ends at offset `2` (the trailing retreat loop pulls the cursor back so a
full window remains readable), while two sequential single-line forward
seeks end at offset `4`. -/
theorem C7_counterexample :
    seekForwardNV1 [97, 10, 98, 10, 99, 10] 2 2 0 = 2
    ∧ seekForwardLine [97, 10, 98, 10, 99, 10]
        (seekForwardLine [97, 10, 98, 10, 99, 10] 0) = 4
    ∧ seekForwardN [97, 10, 98, 10, 99, 10] 2 0 = 4
    ∧ (2 : Nat) ≠ 4 := by
  decide

/-- Claim C7 amended: In the second source variant, `lineForward(n)` and
`lineBackward(n)` are exactly `n` sequential invocations of the single-line
navigator, each step starting from the previous step's result (so a jump of
`4` equals four sequential single-line forward moves); in the first variant
this holds for `lineBackward(n)`, but `lineForward(n)` appends a backward
retreat loop and can differ (see the counterexample). -/
theorem C7_iteration_amended (file : ByteFile) (n p : Nat) :
    seekForwardN file n p = (seekForwardLine file)^[n] p
    ∧ seekBackwardN file n p = (seekBackLine file)^[n] p
    ∧ seekForwardN file 4 p =
        seekForwardLine file (seekForwardLine file
          (seekForwardLine file (seekForwardLine file p))) := by
  refine ⟨seekForwardN_eq_iterate file n p, seekBackwardN_eq_iterate file n p, ?_⟩
  rw [show (4 : Nat) = 3 + 1 from rfl, seekForwardN_succ',
    show (3 : Nat) = 2 + 1 from rfl, seekForwardN_succ',
    show (2 : Nat) = 1 + 1 from rfl, seekForwardN_succ',
    show (1 : Nat) = 0 + 1 from rfl, seekForwardN_succ']
  rfl

/-! ### Claims C2 and C3: the renderer -/

theorem take_min_length {α : Type} (l : List α) (w : Nat) :
    l.take (min l.length w) = l.take w := by
  rcases Nat.le_total l.length w with h | h
  · rw [Nat.min_eq_left h, List.take_length, List.take_of_length_le h]
  · rw [Nat.min_eq_right h]

/-- Successful clipping: when the shift is within the line, the Go slice
drops the first `hshift` code points and keeps at most `width` of them. -/
theorem clipLine_of_le (hshift width : Nat) (line : List Char) (h : hshift ≤ line.length) :
    clipLine hshift width line = some ((line.drop hshift).take width) := by
  unfold clipLine
  rw [if_pos (by omega)]
  congr 1
  rw [show min line.length (hshift + width) - hshift
      = min (line.drop hshift).length width by rw [List.length_drop]; omega]
  exact take_min_length _ width

/-- Failing clipping: a shift beyond the line's length makes the Go slice
bounds invalid, which panics. -/
theorem clipLine_none (hshift width : Nat) (line : List Char) (h : line.length < hshift) :
    clipLine hshift width line = none := by
  unfold clipLine
  rw [if_neg (by omega)]

/-- Claim C3 counterexample: Clipping the one-character line `"a"` with
`horizontalShift = 2` does not yield the empty string: the slice bounds are
out of range and the program panics (`none`); a whole render with such a
shift fails the same way. -/
theorem C3_counterexample :
    clipLine 2 5 ['a'] = none
    ∧ clipLine 2 5 ['a'] ≠ some []
    ∧ getPrintableLinesV2 0 0 5 5 9 [] = none := by
  decide

/-- Claim C3 amended: For every produced line, clipping succeeds exactly
when `horizontalShift` does not exceed the line's length in code points
(yielding the line with the first `hshift` code points dropped and at most
`width` kept); when the shift exceeds the line's length, the slice
expression `rpl[shift:min(len, shift+width)]` has invalid bounds and the
program panics instead of producing an empty string. -/
theorem C3_clip_amended (hshift width : Nat) (line : List Char) :
    (hshift ≤ line.length → clipLine hshift width line = some ((line.drop hshift).take width))
    ∧ (line.length < hshift → clipLine hshift width line = none) :=
  ⟨clipLine_of_le hshift width line, clipLine_none hshift width line⟩

/-- Witness for `C3_clip_amended` on the line `"a"` with shifts `0` and `2`. -/
theorem C3_clip_amended_witness :
    clipLine 0 5 ['a'] = some (((['a'] : List Char).drop 0).take 5)
    ∧ clipLine 2 5 ['a'] = none :=
  ⟨(C3_clip_amended 0 5 ['a']).1 (by decide), (C3_clip_amended 2 5 ['a']).2 (by decide)⟩

/-- Claim C2 counterexample: Rendering a file with zero records produces
exactly ONE printable line — the footer border line — not a header line
followed by a footer line: the window starts as `[header]` and the
unconditional `window[len(window)-1] = footer` overwrites the header. -/
theorem C2_counterexample :
    getPrintableLinesV2 0 0 50 5 0 [] = some [getTableFooterLineV2 0 0]
    ∧ (getPrintableLinesV2 0 0 50 5 0 []).map List.length = some 1
    ∧ getTableHeaderLineV2 0 0 = ['┏']
    ∧ getTableFooterLineV2 0 0 = ['┗'] := by
  decide

/-- Claim C2 amended: For a file with zero records and any terminal of
height at least `1`, the rendered viewport is exactly one line: the footer
border line (clipped to the viewport width); the header border line is
overwritten by the footer and no data rows appear. -/
theorem C2_empty_render_amended (maxFields maxWidth width height : Nat) (h : 1 ≤ height) :
    getPrintableLinesV2 maxFields maxWidth width height 0 [] =
      some [(getTableFooterLineV2 maxFields maxWidth).take width] := by
  simp only [getPrintableLinesV2, buildWindow, replaceLast, List.dropLast_single,
    List.nil_append]
  rw [show min height ([getTableFooterLineV2 maxFields maxWidth] : List (List Char)).length = 1
    by simp; omega]
  simp only [List.take_succ_cons, List.take_zero, List.mapM_cons, List.mapM_nil]
  rw [clipLine_of_le 0 width _ (Nat.zero_le _)]
  simp [List.drop_zero]

/-- Witness for `C2_empty_render_amended` on a `5`-row terminal. -/
theorem C2_empty_render_amended_witness :
    (1 : Nat) ≤ 5
    ∧ getPrintableLinesV2 0 0 50 5 0 [] = some [(getTableFooterLineV2 0 0).take 50] :=
  ⟨by decide, C2_empty_render_amended 0 0 50 5 (by decide)⟩

/-! ### Claim C8: panning right -/

/-- Repeated right-pans converge to a fixed point whose remaining unclipped
length is AT MOST the viewport width, and stay there. -/
theorem panRight_converges (maxFields maxWidth width shift : Nat) :
    ∃ k, countMaxJoinedLength maxFields maxWidth
        - (moveToRight maxFields maxWidth width)^[k] shift ≤ width
      ∧ ∀ j, (moveToRight maxFields maxWidth width)^[k + j] shift
          = (moveToRight maxFields maxWidth width)^[k] shift := by
  by_cases h : countMaxJoinedLength maxFields maxWidth - shift ≤ width
  · refine ⟨0, by simpa using h, fun j => ?_⟩
    have hfix : moveToRight maxFields maxWidth width shift = shift := by
      unfold moveToRight
      rw [if_pos h]
    simp only [Nat.zero_add, Function.iterate_zero_apply]
    exact Function.iterate_fixed hfix j
  · have hstep : moveToRight maxFields maxWidth width shift = shift + maxWidth + 1 := by
      unfold moveToRight
      rw [if_neg h]
    obtain ⟨k, hk, hst⟩ := panRight_converges maxFields maxWidth width (shift + maxWidth + 1)
    refine ⟨k + 1, ?_, fun j => ?_⟩
    · rw [Function.iterate_succ_apply, hstep]
      exact hk
    · rw [show k + 1 + j = k + j + 1 by omega, Function.iterate_succ_apply,
        Function.iterate_succ_apply, hstep]
      exact hst j
termination_by countMaxJoinedLength maxFields maxWidth - shift
decreasing_by simp_wf; omega

/-- Claim C8 counterexample: With `maxFields = 2`, `maxWidth = 3` the
unclipped table is `9` code points wide; on a viewport of width `6` a right
pan from shift `0` jumps to shift `4`, which is already a fixed point, yet
the remaining unclipped length there is `5`, strictly less than the
viewport width `6`: convergence is to remaining length at most the width,
not exactly the width. -/
theorem C8_counterexample :
    countMaxJoinedLength 2 3 = 9
    ∧ 6 < countMaxJoinedLength 2 3
    ∧ moveToRight 2 3 6 0 = 4
    ∧ moveToRight 2 3 6 4 = 4
    ∧ countMaxJoinedLength 2 3 - 4 = 5
    ∧ countMaxJoinedLength 2 3 - 4 ≠ 6 := by
  decide

/-- Claim C8 amended: Panning right is a no-op whenever the unclipped
table's remaining length from the current shift already fits the viewport
width (in both source variants); and repeated right-pans converge, in
finitely many steps, to a shift from which the remaining unclipped length
is AT MOST (not necessarily exactly) the viewport width, after which every
further right-pan leaves the shift unchanged. -/
theorem C8_pan_amended (maxFields maxWidth width shift : Nat) :
    (countMaxJoinedLength maxFields maxWidth - shift ≤ width →
      moveToRight maxFields maxWidth width shift = shift)
    ∧ (∃ k, countMaxJoinedLength maxFields maxWidth
          - (moveToRight maxFields maxWidth width)^[k] shift ≤ width
        ∧ ∀ j, (moveToRight maxFields maxWidth width)^[k + j] shift
            = (moveToRight maxFields maxWidth width)^[k] shift)
    ∧ (∀ ws shiftV1 : _, (countMaxJoinedLengthV1 ws : Int) - (shiftV1 : Nat) ≤ (width : Int) →
        moveToRightV1 ws width shiftV1 = some shiftV1) := by
  refine ⟨fun h => ?_, panRight_converges maxFields maxWidth width shift, fun ws s h => ?_⟩
  · unfold moveToRight
    rw [if_pos h]
  · unfold moveToRightV1
    rw [if_pos h]

/-- Witness for `C8_pan_amended`: a table of width `9` on a viewport of
width `12` already fits, so a right pan is a no-op in both variants. -/
theorem C8_pan_amended_witness :
    moveToRight 2 3 12 0 = 0 ∧ moveToRightV1 [3, 3] 12 0 = some 0 :=
  ⟨(C8_pan_amended 2 3 12 0).1 (by decide),
   (C8_pan_amended 2 3 12 0).2.2 [3, 3] 0 (by decide)⟩

/-! ### Claim C1: column metrics across windows -/

theorem foldl_max_shift {α : Type} (g : α → Nat) (l : List α) (a : Nat) :
    l.foldl (fun acc x => max acc (g x)) a
      = max a (l.foldl (fun acc x => max acc (g x)) 0) := by
  induction l generalizing a with
  | nil => simp
  | cons x xs ih =>
    rw [List.foldl_cons, List.foldl_cons, ih (max a (g x)), ih (max 0 (g x))]
    simp [Nat.zero_max, Nat.max_assoc]

theorem foldl_width_shift (w : List CsvRecord) (a : Nat) :
    w.foldl (fun acc r => r.foldl (fun x f => max x f.length) acc) a
      = max a (w.foldl (fun acc r => r.foldl (fun x f => max x f.length) acc) 0) := by
  induction w generalizing a with
  | nil => simp
  | cons r rs ih =>
    rw [List.foldl_cons, List.foldl_cons,
      ih (r.foldl (fun x f => max x f.length) a),
      ih (r.foldl (fun x f => max x f.length) 0),
      foldl_max_shift List.length r a, foldl_max_shift List.length r 0]
    simp [Nat.zero_max, Nat.max_assoc]

theorem readLinesMetricsV2_maxFields (w : List CsvRecord) (st : MetricsV2) :
    (readLinesMetricsV2 st w).maxFields
      = w.foldl (fun a r => max a r.length) st.maxFields := by
  induction w generalizing st with
  | nil => rfl
  | cons r rs ih =>
    rw [readLinesMetricsV2, List.foldl_cons, List.foldl_cons]
    exact ih (readRecordMetricsV2 st r)

theorem readLinesMetricsV2_maxWidth (w : List CsvRecord) (st : MetricsV2) :
    (readLinesMetricsV2 st w).maxWidth
      = w.foldl (fun acc r => r.foldl (fun x f => max x f.length) acc) st.maxWidth := by
  induction w generalizing st with
  | nil => rfl
  | cons r rs ih =>
    rw [readLinesMetricsV2, List.foldl_cons, List.foldl_cons]
    exact ih (readRecordMetricsV2 st r)

/-- Claim C1 counterexample: A window holding the single record `["ab"]`
(one field of width `2`) read by a pager whose metrics already record a
width of `5` from an earlier window keeps `maxWidth = 5` — whereas metrics
recomputed freshly from the current window alone give `maxWidth = 2`.  The
first variant's per-column width list behaves the same way. -/
theorem C1_counterexample :
    readLinesMetricsV2 ⟨1, 5⟩ [[['a', 'b']]] = ⟨1, 5⟩
    ∧ readLinesMetricsV2 ⟨0, 0⟩ [[['a', 'b']]] = ⟨1, 2⟩
    ∧ readLinesMetricsV2 ⟨1, 5⟩ [[['a', 'b']]]
        ≠ readLinesMetricsV2 ⟨0, 0⟩ [[['a', 'b']]]
    ∧ readLinesWidthsV1 [5] [[['a', 'b']]] = [5]
    ∧ readLinesWidthsV1 [] [[['a', 'b']]] = [2] := by
  decide

/-- Claim C1 amended: The column metrics are running maxima over the whole
session, never reset between windows: the metrics after reading a window
are the pointwise maximum of the metrics carried in from earlier windows
and the metrics the window would produce from a fresh (zero) state.  In
particular they can retain contributions from records no longer visible. -/
theorem C1_metrics_amended (st : MetricsV2) (w : List CsvRecord) :
    (readLinesMetricsV2 st w).maxFields
        = max st.maxFields (readLinesMetricsV2 ⟨0, 0⟩ w).maxFields
    ∧ (readLinesMetricsV2 st w).maxWidth
        = max st.maxWidth (readLinesMetricsV2 ⟨0, 0⟩ w).maxWidth := by
  constructor
  · rw [readLinesMetricsV2_maxFields, readLinesMetricsV2_maxFields]
    exact foldl_max_shift List.length w st.maxFields
  · rw [readLinesMetricsV2_maxWidth, readLinesMetricsV2_maxWidth]
    exact foldl_width_shift w st.maxWidth

/-! ### Claim C9: startup validation -/

/-- Claim C9 counterexample: An invocation with a file path but an empty
delimiter string is not rejected as a usage error: it passes `main`'s
validation and panics (`none`, an index-out-of-range on `comma[0]`) when
the first CSV reader is constructed — after the core has taken over. -/
theorem C9_counterexample :
    startup "data.csv" "" = none
    ∧ startup "data.csv" "" ≠ some StartupOutcome.usage := by
  decide

/-- Claim C9 amended: Only the file path is validated: an empty `-file`
value is rejected as a usage error before the core activates, while the
delimiter is never checked — a non-empty path with an empty delimiter
reaches the core and panics at the first read, and a non-empty delimiter's
first character becomes the field separator. -/
theorem C9_validation_amended (f c : String) :
    (f = "" → startup f c = some StartupOutcome.usage)
    ∧ (f ≠ "" → c = "" → startup f c = none)
    ∧ (f ≠ "" → ∀ ch rest, c.data = ch :: rest →
        startup f c = some (StartupOutcome.run ch)) := by
  refine ⟨fun h => ?_, fun h1 h2 => ?_, fun h1 ch rest h2 => ?_⟩
  · unfold startup
    rw [if_pos h]
  · unfold startup
    rw [if_neg h1]
    have hc : c.data = [] := by rw [h2]
    rw [hc]
  · unfold startup
    rw [if_neg h1, h2]

/-- Witness for `C9_validation_amended` on the three argument shapes. -/
theorem C9_validation_amended_witness :
    startup "" "," = some StartupOutcome.usage
    ∧ startup "a.csv" "" = none
    ∧ startup "a.csv" ";" = some (StartupOutcome.run ';') :=
  ⟨(C9_validation_amended "" ",").1 rfl,
   (C9_validation_amended "a.csv" "").2.1 (by decide) rfl,
   (C9_validation_amended "a.csv" ";").2.2 (by decide) ';' [] (by decide)⟩

end CsvPeek
